import Mathlib

/-!
Verification of the hndshake backend (Go) against its specification.

The Go source is shallowly embedded: pure helpers become Lean functions,
the stateful pieces (rate limiter middleware, migration runner, startup
configuration) are modelled as functions over explicit state, with the
external collaborators (relational store, directory listing, environment)
represented by explicit parameters following their documented contracts.
Machine integers are modelled as `Nat`/`Int` with explicit `% 2^w` where
the Go code relies on 32-bit wraparound (inside SHA-256).
-/

namespace Hndshake

/-! ### Go string helpers

Go `strings` / `strconv` functions used by the backend, embedded over
`List Char`.  Go strings are byte strings; the embedding works on the
UTF-8 byte sequence where byte-level behaviour matters (`len`,
hashing) and on characters where Go iterates runes (`TrimSpace`). -/

/-- The Unicode code points accepted by Go's `unicode.IsSpace`
(the White_Space property), used by `strings.TrimSpace`. -/
def goSpaceCodes : List Nat :=
  [0x9, 0xa, 0xb, 0xc, 0xd, 0x20, 0x85, 0xa0, 0x1680,
   0x2000, 0x2001, 0x2002, 0x2003, 0x2004, 0x2005, 0x2006, 0x2007, 0x2008, 0x2009, 0x200a,
   0x2028, 0x2029, 0x202f, 0x205f, 0x3000]

def isGoSpace (c : Char) : Bool := goSpaceCodes.contains c.toNat

/-- Go `strings.TrimSpace`: drop leading and trailing white space. -/
def trimSpace (s : String) : String :=
  String.mk (((s.data.dropWhile isGoSpace).reverse.dropWhile isGoSpace).reverse)

/-- Go `strings.Split(s, ",")` on the character list. -/
def splitComma : List Char → List (List Char)
  | [] => [[]]
  | c :: rest =>
    let r := splitComma rest
    if c = ',' then [] :: r
    else (c :: r.headD []) :: r.tail

/-- Go `strings.Split(s, ",")`. -/
def goSplitComma (s : String) : List String := (splitComma s.data).map String.mk

/-- Go `strings.HasSuffix` (byte-wise suffix test; the names involved are
ASCII, so the character-list comparison coincides with the byte one). -/
def goHasSuffix (s suffix : String) : Bool :=
  decide (s.data.length ≥ suffix.data.length) &&
    (s.data.drop (s.data.length - suffix.data.length) == suffix.data)

/-- Go `strings.TrimSuffix`: remove `suffix` if present, else unchanged. -/
def goTrimSuffix (s suffix : String) : String :=
  if goHasSuffix s suffix then String.mk (s.data.take (s.data.length - suffix.data.length))
  else s

/-- Digit run parser underlying `strconv.Atoi`: all characters must be
decimal digits and there must be at least one. -/
def parseDigits : List Char → Option Nat
  | [] => none
  | l =>
    if l.all (fun c => c.isDigit) then
      some (l.foldl (fun acc c => acc * 10 + (c.toNat - 48)) 0)
    else none

/-- Go `strconv.Atoi`: optional sign followed by decimal digits;
anything else is an error (`none`).  (Overflow of 64-bit `int` is not
modelled; the handler only compares the result against small bounds.) -/
def goAtoi (s : String) : Option Int :=
  match s.data with
  | [] => none
  | '+' :: rest => (parseDigits rest).map Int.ofNat
  | '-' :: rest => (parseDigits rest).map (fun n => -(n : Int))
  | l => (parseDigits l).map Int.ofNat

/-- UTF-8 encoding of one character, as byte values. -/
def utf8Bytes (c : Char) : List Nat :=
  let n := c.toNat
  if n < 0x80 then [n]
  else if n < 0x800 then [0xc0 ||| (n >>> 6), 0x80 ||| (n &&& 0x3f)]
  else if n < 0x10000 then
    [0xe0 ||| (n >>> 12), 0x80 ||| ((n >>> 6) &&& 0x3f), 0x80 ||| (n &&& 0x3f)]
  else
    [0xf0 ||| (n >>> 18), 0x80 ||| ((n >>> 12) &&& 0x3f), 0x80 ||| ((n >>> 6) &&& 0x3f),
     0x80 ||| (n &&& 0x3f)]

/-- The UTF-8 bytes of a string — Go's `[]byte(s)`. -/
def strBytes (s : String) : List Nat := (s.data.map utf8Bytes).flatten

/-- Go `len` on a string: its UTF-8 byte count. -/
def goLen (s : String) : Nat := (strBytes s).length

/-! ### SHA-256 (`crypto/sha256.Sum256`)

FIPS 180-4 SHA-256 over byte lists, with 32-bit words as `Nat` reduced
`% 2^32`. -/

def w32 : Nat := 4294967296

/-- Rotate a 32-bit word right by `n`. -/
def rotr (n x : Nat) : Nat := ((x >>> n) ||| (x <<< (32 - n))) % w32

def smallSigma0 (x : Nat) : Nat := (rotr 7 x) ^^^ (rotr 18 x) ^^^ (x >>> 3)

def smallSigma1 (x : Nat) : Nat := (rotr 17 x) ^^^ (rotr 19 x) ^^^ (x >>> 10)

def bigSigma0 (x : Nat) : Nat := (rotr 2 x) ^^^ (rotr 13 x) ^^^ (rotr 22 x)

def bigSigma1 (x : Nat) : Nat := (rotr 6 x) ^^^ (rotr 11 x) ^^^ (rotr 25 x)

def chFn (x y z : Nat) : Nat := (x &&& y) ^^^ ((x ^^^ 0xffffffff) &&& z)

def majFn (x y z : Nat) : Nat := (x &&& y) ^^^ (x &&& z) ^^^ (y &&& z)

/-- The 64 SHA-256 round constants (FIPS 180-4 §4.2.2), in decimal. -/
def roundK : List Nat :=
  [1116352408, 1899447441, 3049323471, 3921009573,
   961987163, 1508970993, 2453635748, 2870763221,
   3624381080, 310598401, 607225278, 1426881987,
   1925078388, 2162078206, 2614888103, 3248222580,
   3835390401, 4022224774, 264347078, 604807628,
   770255983, 1249150122, 1555081692, 1996064986,
   2554220882, 2821834349, 2952996808, 3210313671,
   3336571891, 3584528711, 113926993, 338241895,
   666307205, 773529912, 1294757372, 1396182291,
   1695183700, 1986661051, 2177026350, 2456956037,
   2730485921, 2820302411, 3259730800, 3345764771,
   3516065817, 3600352804, 4094571909, 275423344,
   430227734, 506948616, 659060556, 883997877,
   958139571, 1322822218, 1537002063, 1747873779,
   1955562222, 2024104815, 2227730452, 2361852424,
   2428436474, 2756734187, 3204031479, 3329325298]

/-- The eight 32-bit working variables of SHA-256. -/
structure HashState where
  a : Nat
  b : Nat
  c : Nat
  d : Nat
  e : Nat
  f : Nat
  g : Nat
  h : Nat
deriving Repr, DecidableEq

/-- The SHA-256 initial hash values (FIPS 180-4 §5.3.3), in decimal. -/
def initState : HashState :=
  ⟨1779033703, 3144134277, 1013904242, 2773480762,
   1359893119, 2600822924, 528734635, 1541459225⟩

/-- One SHA-256 compression round. -/
def sha256Round (k w : Nat) (s : HashState) : HashState :=
  let t1 := (s.h + bigSigma1 s.e + chFn s.e s.f s.g + k + w) % w32
  let t2 := (bigSigma0 s.a + majFn s.a s.b s.c) % w32
  ⟨(t1 + t2) % w32, s.a, s.b, s.c, (s.d + t1) % w32, s.e, s.f, s.g⟩

/-- Big-endian combination of four bytes into a 32-bit word. -/
def bytesToWord (a b c d : Nat) : Nat := ((a * 256 + b) * 256 + c) * 256 + d

/-- Group a 64-byte block into sixteen 32-bit words. -/
def toWords : List Nat → List Nat
  | a :: b :: c :: d :: rest => bytesToWord a b c d :: toWords rest
  | _ => []

/-- Extend the sixteen block words by `n` further message-schedule words. -/
def extendSchedule (ws : List Nat) : Nat → List Nat
  | 0 => ws
  | i + 1 =>
    let prev := extendSchedule ws i
    let n := prev.length
    prev ++ [(smallSigma1 (prev.getD (n - 2) 0) + prev.getD (n - 7) 0 +
              smallSigma0 (prev.getD (n - 15) 0) + prev.getD (n - 16) 0) % w32]

/-- Compress one 64-byte block into the running hash state. -/
def compressBlock (st : HashState) (block : List Nat) : HashState :=
  let ws := extendSchedule (toWords block) 48
  let s := (List.zip roundK ws).foldl (fun s kw => sha256Round kw.1 kw.2 s) st
  ⟨(st.a + s.a) % w32, (st.b + s.b) % w32, (st.c + s.c) % w32, (st.d + s.d) % w32,
   (st.e + s.e) % w32, (st.f + s.f) % w32, (st.g + s.g) % w32, (st.h + s.h) % w32⟩

/-- The 8-byte big-endian bit length trailer of the padding. -/
def lenBytes (L : Nat) : List Nat :=
  [((8 * L) >>> 56) % 256, ((8 * L) >>> 48) % 256, ((8 * L) >>> 40) % 256, ((8 * L) >>> 32) % 256,
   ((8 * L) >>> 24) % 256, ((8 * L) >>> 16) % 256, ((8 * L) >>> 8) % 256, (8 * L) % 256]

/-- SHA-256 message padding: `0x80`, zeros to 56 mod 64, bit length. -/
def padMsg (msg : List Nat) : List Nat :=
  msg ++ [0x80] ++ List.replicate ((119 - msg.length % 64) % 64) 0 ++ lenBytes msg.length

/-- Split into 64-byte blocks (fuelled so that the kernel can unfold it;
the fuel `l.length` always suffices since each step consumes 64 bytes). -/
def chunksGo : Nat → List Nat → List (List Nat)
  | 0, _ => []
  | _, [] => []
  | fuel + 1, l => l.take 64 :: chunksGo fuel (l.drop 64)

def chunksOf64 (l : List Nat) : List (List Nat) := chunksGo l.length l

/-- The final SHA-256 state of a byte message. -/
def sha256Words (msg : List Nat) : HashState :=
  (chunksOf64 (padMsg msg)).foldl compressBlock initState

/-- Big-endian bytes of a 32-bit word. -/
def wordBytes (x : Nat) : List Nat := [(x >>> 24) % 256, (x >>> 16) % 256, (x >>> 8) % 256, x % 256]

/-- The 32 digest bytes of a final hash state. -/
def stateBytes (s : HashState) : List Nat :=
  wordBytes s.a ++ wordBytes s.b ++ wordBytes s.c ++ wordBytes s.d ++
  wordBytes s.e ++ wordBytes s.f ++ wordBytes s.g ++ wordBytes s.h

/-- `crypto/sha256.Sum256`: the 32-byte SHA-256 digest of a byte message. -/
def sha256 (msg : List Nat) : List Nat := stateBytes (sha256Words msg)

/-- All eight working variables fit in 32 bits. -/
def boundedState (s : HashState) : Prop :=
  s.a < w32 ∧ s.b < w32 ∧ s.c < w32 ∧ s.d < w32 ∧ s.e < w32 ∧ s.f < w32 ∧ s.g < w32 ∧ s.h < w32

/-- Lowercase hex digit, as in `encoding/hex`. -/
def hexDigit (n : Nat) : Char := if n < 10 then Char.ofNat (48 + n) else Char.ofNat (87 + n)

def byteHex (b : Nat) : List Char := [hexDigit (b / 16 % 16), hexDigit (b % 16)]

/-- `encoding/hex.EncodeToString` over byte values. -/
def hexEncodeBytes (l : List Nat) : List Char := (l.map byteHex).flatten

/-- `hashIP` (middleware.go): hex-encoded SHA-256 of the address with the
fixed salt appended. -/
def hashIP (ip : String) : String :=
  String.mk (hexEncodeBytes (sha256 (strBytes (ip ++ "living-timeline-salt"))))

/-! ### Requests and `getIP` -/

/-- The projection of an `http.Request` the middleware reads: the method,
the results of `Header.Get` on the two address headers (`""` when the
header is absent, as in Go), and `RemoteAddr`. -/
structure Request where
  method : String
  xForwardedFor : String
  xRealIP : String
  remoteAddr : String

/-- Strip a `:port` suffix: Go's
`if colonIndex := strings.LastIndex(ip, ":"); colonIndex != -1 { ip = ip[:colonIndex] }` —
everything before the last colon, unchanged when there is no colon. -/
def stripPort (ip : String) : String :=
  if ip.data.contains ':' then
    String.mk (((ip.data.reverse.dropWhile (fun c => c != ':')).drop 1).reverse)
  else ip

/-- `getIP` (middleware.go): first `X-Forwarded-For` entry (trimmed) if the
header is present, else `X-Real-IP` if present, else `RemoteAddr` with any
port suffix stripped. -/
def getIP (r : Request) : String :=
  if r.xForwardedFor ≠ "" then trimSpace ((goSplitComma r.xForwardedFor).headD "")
  else if r.xRealIP ≠ "" then r.xRealIP
  else stripPort r.remoteAddr

/-! ### The rate limiter (`RateLimiter.Limit`, `GetPostCountByIPInWindow`) -/

/-- A row of the `posts` table as the rate limiter sees it: the creator's
identity digest and the creation time.  Time is measured in minutes, so
that the SQL comparison `created_at > NOW() - INTERVAL '1 minute' * $2`
becomes `createdAt > now - windowMinutes`. -/
structure Post where
  ipHash : String
  createdAt : Int

/-- `DB.GetPostCountByIPInWindow`'s SQL, evaluated over the table:
`SELECT COUNT(*) FROM posts WHERE ip_hash = $1 AND created_at > NOW() - INTERVAL '1 minute' * $2`. -/
def countInWindow (posts : List Post) (now : Int) (ipHash : String) (windowMinutes : Int) : Nat :=
  posts.countP (fun p => p.ipHash == ipHash && decide (p.createdAt > now - windowMinutes))

/-- The persistent store as the limiter uses it: the `posts` table plus a
flag saying whether the count query fails (connectivity loss etc.). -/
structure DB where
  posts : List Post
  failing : Bool

/-- The count query: an error exactly when the store is failing. -/
def dbCount (db : DB) (now : Int) (ipHash : String) (windowMinutes : Int) : Except Unit Nat :=
  if db.failing then .error () else .ok (countInWindow db.posts now ipHash windowMinutes)

structure RateLimiter where
  requestLimit : Int
  windowMinutes : Int

/-- The 429 body written by `Limit`:
`{"error":"Rate limit exceeded. Maximum %d posts per %d minutes."}`. -/
def rateLimitBody (limit window : Int) : String :=
  "\x7b\"error\":\"Rate limit exceeded. Maximum " ++ toString limit ++
    " posts per " ++ toString window ++ " minutes.\"\x7d"

/-- What `RateLimiter.Limit` does with a request: forward non-POSTs
untouched, answer 500 on a failed count query, answer 429 with the
structured body when the count reaches the limit, and otherwise forward
to `next` with the identity digest attached to the context. -/
inductive LimitDecision
  | pass
  | error500
  | reject429 (body : String)
  | forward (ipHash : String)
deriving Repr, DecidableEq

/-- `RateLimiter.Limit` (middleware.go). -/
def RateLimiter.Limit (rl : RateLimiter) (db : DB) (now : Int) (r : Request) : LimitDecision :=
  if r.method ≠ "POST" then .pass
  else
    let ip := getIP r
    let ipHash := hashIP ip
    match dbCount db now ipHash rl.windowMinutes with
    | .error _ => .error500
    | .ok count =>
      if (count : Int) ≥ rl.requestLimit then
        .reject429 (rateLimitBody rl.requestLimit rl.windowMinutes)
      else .forward ipHash

/-! ### The migration runner (`runMigrations`, middleware.go) -/

/-- A directory entry of the migration script source: name, whether it is
a directory, and the file's text (what `os.ReadFile` returns for it). -/
structure MigFile where
  name : String
  isDir : Bool
  content : String
deriving DecidableEq

/-- Lexicographic order on character lists by code point — Go's
byte-wise string comparison (UTF-8 preserves code-point order, so the
character-wise comparison coincides with the byte-wise one). -/
def lexLe : List Char → List Char → Bool
  | [], _ => true
  | _ :: _, [] => false
  | a :: as, b :: bs =>
    if a.toNat < b.toNat then true
    else if b.toNat < a.toNat then false
    else lexLe as bs

/-- Go's `s <= t` on strings. -/
def nameLe (s t : String) : Bool := lexLe s.data t.data

/-- Go `os.ReadDir`, whose documented contract is to return the entries
sorted by filename. -/
def readDir (entries : List MigFile) : List MigFile :=
  List.insertionSort (fun a b => nameLe a.name b.name = true) entries

/-- `os.ReadFile("migrations/" + filename)` over the modelled directory. -/
def readMigFile (entries : List MigFile) (filename : String) : String :=
  (((entries.find? (fun f => f.name == filename)).map MigFile.content).getD "")

/-- The observable state of one run of `runMigrations`: the recorded
versions in `schema_migrations`, the versions executed by this run in
order, and the filenames this run read from disk in order. -/
structure MigState where
  applied : List String
  executed : List String
  reads : List String
deriving Repr, DecidableEq

/-- Outcome of `runMigrations`: normal completion, or `log.Fatalf`
(process termination) with the state at that point and the message. -/
inductive MigResult
  | ok (st : MigState)
  | fatal (st : MigState) (msg : String)
deriving Repr, DecidableEq

/-- The per-script loop of `runMigrations`.  `execOk` says whether
`db.conn.Exec` succeeds on a given script text; `recordOk` whether the
tracking `INSERT` succeeds for a given version (connectivity loss,
constraint violations).  For each filename in order: derive the version
by stripping `".sql"`; skip if recorded; else read the file, execute it
(failure is fatal), and record it (failure is fatal). -/
def migLoop (execOk : String → Bool) (recordOk : String → Bool) (entries : List MigFile) :
    List String → MigState → MigResult
  | [], st => .ok st
  | filename :: rest, st =>
    let version := goTrimSuffix filename ".sql"
    if st.applied.contains version then
      migLoop execOk recordOk entries rest st
    else
      let content := readMigFile entries filename
      let st1 : MigState := { st with reads := st.reads ++ [filename] }
      if execOk content then
        let st2 : MigState := { st1 with executed := st1.executed ++ [version] }
        if recordOk version then
          migLoop execOk recordOk entries rest { st2 with applied := st2.applied ++ [version] }
        else .fatal st2 ("Failed to record migration " ++ version)
      else .fatal st1 ("Failed to run migration " ++ version)

/-- The filenames `runMigrations` iterates over: the `os.ReadDir` listing
(sorted by name), keeping non-directories whose name ends in `".sql"`. -/
def sqlFilenames (entries : List MigFile) : List String :=
  ((readDir entries).filter (fun f => !f.isDir && goHasSuffix f.name ".sql")).map MigFile.name

/-- `runMigrations` (middleware.go).  The creation of the tracking table
is create-if-absent; its contents on entry are `applied0`. -/
def runMigrations (execOk : String → Bool) (recordOk : String → Bool)
    (entries : List MigFile) (applied0 : List String) : MigResult :=
  migLoop execOk recordOk entries (sqlFilenames entries) ⟨applied0, [], []⟩

/-! ### Handlers (`GetPosts`, `CreatePost` validation) -/

/-- `Handler.GetPosts`'s effective `limit`: default 50; a supplied value
replaces it only when it parses and lies in (0,100]. -/
def effectiveLimit (limitStr : String) : Int :=
  if limitStr ≠ "" then
    match goAtoi limitStr with
    | some v => if v > 0 ∧ v ≤ 100 then v else 50
    | none => 50
  else 50

/-- `Handler.GetPosts`'s effective `offset`: default 0; a supplied value
replaces it only when it parses and is ≥ 0. -/
def effectiveOffset (offsetStr : String) : Int :=
  if offsetStr ≠ "" then
    match goAtoi offsetStr with
    | some v => if v ≥ 0 then v else 0
    | none => 0
  else 0

/-- Spec wording ("`limit` clamped to (0,100]"), for comparison with the
code: mathematical clamping of an integer into [1,100]. -/
def clampPosLimit (v : Int) : Int := min (max v 1) 100

/-- `CreatePostRequest`.  Modelled from the spec: the `models.go` under
`src/` predates the age migration (it still has an `age_range` string and
no `age`), while the handlers and store code shipped with it use a
numeric `age` field; per spec §3 a post carries a numeric age, so the
request struct is taken with `age : Int` as its users require. -/
structure CreatePostRequest where
  eventName : String
  content : String
  age : Int
  gender : String
  location : String

/-- `validateCreatePostRequest` (handlers): trims `event_name`, `content`
and `location` on its local copy, then checks non-emptiness, length
bounds (Go `len`, i.e. bytes), the age range 1..120, and the optional
gender's length.  Returns the error message, `none` on success. -/
def validateCreatePostRequest (req : CreatePostRequest) : Option String :=
  let eventName := trimSpace req.eventName
  let content := trimSpace req.content
  let location := trimSpace req.location
  if eventName == "" then some "event_name is required"
  else if goLen eventName > 200 then some "event_name must be 200 characters or less"
  else if content == "" then some "content is required"
  else if goLen content > 5000 then some "content must be 5000 characters or less"
  else if req.age < 1 ∨ req.age > 120 then some "age must be between 1 and 120"
  else if location == "" then some "location is required"
  else if goLen location > 200 then some "location must be 200 characters or less"
  else if req.gender != "" && goLen req.gender > 20 then some "gender must be 20 characters or less"
  else none

/-- The row `DB.CreatePost` hands to the `INSERT`: the request's field
values as passed by the handler, plus the identity digest. -/
structure InsertedRow where
  eventName : String
  content : String
  age : Int
  gender : String
  location : String
  ipHash : String
deriving DecidableEq

/-- `Handler.CreatePost` after JSON decoding: validate, and on success
insert the original request values (the trimming in validation only
touched its local copy). -/
def handleCreatePost (req : CreatePostRequest) (ipHash : String) : Except String InsertedRow :=
  match validateCreatePostRequest req with
  | some msg => .error msg
  | none => .ok ⟨req.eventName, req.content, req.age, req.gender, req.location, ipHash⟩

/-! ### Startup configuration (`main.go`) -/

/-- `getEnv` (main.go): the environment value if non-empty, else the
default.  `env` is `os.Getenv`, which returns `""` for unset keys. -/
def getEnv (env : String → String) (key defaultValue : String) : String :=
  if env key ≠ "" then env key else defaultValue

/-- `getEnvInt` (main.go): parse the environment value, falling back to
the default when unset or unparsable. -/
def getEnvInt (env : String → String) (key : String) (defaultValue : Int) : Int :=
  if env key ≠ "" then
    match goAtoi (env key) with
    | some v => v
    | none => defaultValue
  else defaultValue

structure Config where
  databaseURL : String
  port : String
  allowedOrigins : String
  rateLimitRequests : Int
  rateLimitWindowMinutes : Int
deriving DecidableEq

/-- The configuration phase of `main`: `log.Fatal` on a missing
`DATABASE_URL` (before any store connection), else the config the process
proceeds to `NewDB` with. -/
inductive StartupPhase
  | fatalConfig (msg : String)
  | connectStore (cfg : Config)
deriving DecidableEq

/-- `main`'s configuration reading (main.go lines 22–30), up to the point
where the store connection is attempted. -/
def mainStartup (env : String → String) : StartupPhase :=
  let databaseURL := getEnv env "DATABASE_URL" ""
  if databaseURL == "" then .fatalConfig "DATABASE_URL environment variable is required"
  else
    .connectStore
      { databaseURL := databaseURL
        port := getEnv env "PORT" "8080"
        allowedOrigins := getEnv env "ALLOWED_ORIGINS" "http://localhost:3000"
        rateLimitRequests := getEnvInt env "RATE_LIMIT_REQUESTS" 5
        rateLimitWindowMinutes := getEnvInt env "RATE_LIMIT_WINDOW_MINUTES" 60 }

/-! ### Helper lemmas -/

theorem utf8Bytes_ascii (c : Char) (hc : c.toNat < 0x80) : utf8Bytes c = [c.toNat] := by
  unfold utf8Bytes
  rw [if_pos hc]

theorem dropWhile_replicate_of_neg (n : Nat) (c : Char) (hc : isGoSpace c = false) :
    List.dropWhile isGoSpace (List.replicate n c) = List.replicate n c := by
  cases n with
  | zero => simp
  | succ m => rw [List.replicate_succ, List.dropWhile_cons, hc]; simp

theorem trimSpace_replicate (n : Nat) (c : Char) (hc : isGoSpace c = false) :
    trimSpace (String.mk (List.replicate n c)) = String.mk (List.replicate n c) := by
  unfold trimSpace
  rw [show (String.mk (List.replicate n c)).data = List.replicate n c from rfl]
  rw [dropWhile_replicate_of_neg n c hc, List.reverse_replicate,
      dropWhile_replicate_of_neg n c hc, List.reverse_replicate]

theorem goLen_ascii (l : List Char) (h : ∀ c ∈ l, c.toNat < 0x80) :
    goLen (String.mk l) = l.length := by
  unfold goLen strBytes
  rw [show (String.mk l).data = l from rfl]
  induction l with
  | nil => simp
  | cons c rest ih =>
    rw [List.map_cons, List.flatten_cons, utf8Bytes_ascii c (h c (by simp))]
    simp only [List.length_append, List.length_cons, List.length_nil]
    rw [ih (fun d hd => h d (by simp [hd]))]
    omega

theorem goLen_replicate (n : Nat) (c : Char) (hc : c.toNat < 0x80) :
    goLen (String.mk (List.replicate n c)) = n := by
  rw [goLen_ascii _ (fun d hd => by rw [(List.mem_replicate.mp hd).2]; exact hc)]
  simp

/-- Under valid `event_name`, `location` and `gender`, validation is
exactly the content/age check chain of the source, in source order. -/
theorem validate_characterization (req : CreatePostRequest)
    (h1 : trimSpace req.eventName ≠ "") (h2 : goLen (trimSpace req.eventName) ≤ 200)
    (h3 : trimSpace req.location ≠ "") (h4 : goLen (trimSpace req.location) ≤ 200)
    (h5 : req.gender ≠ "" → goLen req.gender ≤ 20) :
    validateCreatePostRequest req =
      (if trimSpace req.content == "" then some "content is required"
       else if goLen (trimSpace req.content) > 5000 then
         some "content must be 5000 characters or less"
       else if req.age < 1 ∨ req.age > 120 then some "age must be between 1 and 120"
       else none) := by
  have e1 : (trimSpace req.eventName == "") = false := beq_eq_false_iff_ne.mpr h1
  have e2 : ¬ goLen (trimSpace req.eventName) > 200 := by omega
  have e3 : (trimSpace req.location == "") = false := beq_eq_false_iff_ne.mpr h3
  have e4 : ¬ goLen (trimSpace req.location) > 200 := by omega
  have e5 : (req.gender != "" && decide (goLen req.gender > 20)) = false := by
    by_cases hg : req.gender = ""
    · simp [hg]
    · have := h5 hg
      simp [hg]
      omega
  simp only [validateCreatePostRequest, e1, e2, e3, e4, e5, Bool.false_eq_true, if_false,
    Bool.not_eq_true]

theorem mkReplicate_beq_empty (n : Nat) (c : Char) (hn : n ≠ 0) :
    (String.mk (List.replicate n c) == "") = false := by
  rw [beq_eq_false_iff_ne]
  intro he
  have hd := congrArg String.data he
  have := congrArg List.length hd
  simp at this
  exact hn this

theorem trimSpace_padded (n : Nat) :
    trimSpace (String.mk (' ' :: (List.replicate n 'a' ++ [' ']))) =
      String.mk (List.replicate n 'a') := by
  have hsp : isGoSpace ' ' = true := by decide
  have ha : isGoSpace 'a' = false := by decide
  unfold trimSpace
  rw [show (String.mk (' ' :: (List.replicate n 'a' ++ [' ']))).data =
      ' ' :: (List.replicate n 'a' ++ [' ']) from rfl]
  rw [List.dropWhile_cons, hsp, if_pos rfl]
  cases n with
  | zero => simp [List.dropWhile, hsp]
  | succ m =>
    rw [List.replicate_succ, List.cons_append, List.dropWhile_cons, ha]
    simp only [Bool.false_eq_true, if_false]
    rw [List.reverse_cons, List.reverse_append, List.reverse_replicate]
    rw [show ([' '] : List Char).reverse = [' '] from rfl]
    rw [List.append_assoc, ← List.replicate_succ']
    rw [show ([' '] : List Char) ++ List.replicate (m + 1) 'a' =
        ' ' :: List.replicate (m + 1) 'a' from rfl]
    rw [List.dropWhile_cons, hsp, if_pos rfl]
    rw [dropWhile_replicate_of_neg _ _ ha, List.reverse_replicate, List.replicate_succ]

/-! ## Claims -/

/-- C9: at startup a missing store connection string (`DATABASE_URL`,
unset or empty) is fatal before any store connection is attempted — the
startup ends in the `fatalConfig` phase, never reaching `connectStore` —
while every other configuration value is defaulted when absent, so the
process proceeds to connect with the defaults. -/
theorem c9_startup_config (env : String → String) :
    (env "DATABASE_URL" = "" →
      mainStartup env = .fatalConfig "DATABASE_URL environment variable is required")
    ∧ (env "DATABASE_URL" ≠ "" →
      ∃ cfg, mainStartup env = .connectStore cfg ∧
        cfg.databaseURL = env "DATABASE_URL" ∧
        (env "PORT" = "" → cfg.port = "8080") ∧
        (env "ALLOWED_ORIGINS" = "" → cfg.allowedOrigins = "http://localhost:3000") ∧
        (env "RATE_LIMIT_REQUESTS" = "" → cfg.rateLimitRequests = 5) ∧
        (env "RATE_LIMIT_WINDOW_MINUTES" = "" → cfg.rateLimitWindowMinutes = 60)) := by
  constructor
  · intro h
    simp [mainStartup, getEnv, h]
  · intro h
    refine ⟨⟨getEnv env "DATABASE_URL" "", getEnv env "PORT" "8080",
        getEnv env "ALLOWED_ORIGINS" "http://localhost:3000",
        getEnvInt env "RATE_LIMIT_REQUESTS" 5,
        getEnvInt env "RATE_LIMIT_WINDOW_MINUTES" 60⟩, ?_, ?_, ?_, ?_, ?_, ?_⟩
    · simp [mainStartup, getEnv, h]
    · simp [getEnv, h]
    · intro hp; simp [getEnv, hp]
    · intro hp; simp [getEnv, hp]
    · intro hp; simp [getEnvInt, hp]
    · intro hp; simp [getEnvInt, hp]

theorem c9_startup_config_witness :
    (mainStartup (fun _ => "") = .fatalConfig "DATABASE_URL environment variable is required")
    ∧ (∃ cfg,
        mainStartup (fun k => if k = "DATABASE_URL" then "postgres://db" else "") =
          .connectStore cfg ∧
        cfg.databaseURL = "postgres://db" ∧ cfg.port = "8080" ∧
        cfg.allowedOrigins = "http://localhost:3000" ∧
        cfg.rateLimitRequests = 5 ∧ cfg.rateLimitWindowMinutes = 60) := by
  constructor
  · exact (c9_startup_config (fun _ => "")).1 rfl
  · obtain ⟨cfg, h1, h2, h3, h4, h5, h6⟩ :=
      (c9_startup_config (fun k => if k = "DATABASE_URL" then "postgres://db" else "")).2
        (by decide)
    exact ⟨cfg, h1, by simpa using h2, h3 (by decide), h4 (by decide), h5 (by decide),
      h6 (by decide)⟩

/-- C5: for POST requests, a failed count query makes the limiter answer
500 and block the request (the gated write never runs, since `next` is
only reached through `forward`); the limiter never forwards a request
when the count query failed. -/
theorem c5_fail_closed (rl : RateLimiter) (db : DB) (now : Int) (r : Request)
    (hpost : r.method = "POST") :
    (db.failing = true → rl.Limit db now r = .error500)
    ∧ (∀ h, rl.Limit db now r = .forward h → db.failing = false) := by
  constructor
  · intro hfail
    simp [RateLimiter.Limit, dbCount, hpost, hfail]
  · intro h hfwd
    by_contra hne
    have hfail : db.failing = true := by
      cases hf : db.failing
      · exact absurd hf hne
      · rfl
    simp [RateLimiter.Limit, dbCount, hpost, hfail] at hfwd

theorem c5_fail_closed_witness :
    RateLimiter.Limit ⟨5, 60⟩ ⟨[], true⟩ 0 ⟨"POST", "", "", "10.0.0.7:1234"⟩ = .error500 :=
  (c5_fail_closed ⟨5, 60⟩ ⟨[], true⟩ 0 ⟨"POST", "", "", "10.0.0.7:1234"⟩ rfl).1 rfl

/-- C6 counterexample: the claim says the effective limit is the supplied
value clamped to (0,100]; clamping 200 into (0,100] gives 100, but the
code falls back to the default 50, so the two disagree at `limit=200`. -/
theorem c6_counterexample :
    effectiveLimit "200" = 50 ∧ clampPosLimit 200 = 100 ∧
      effectiveLimit "200" ≠ clampPosLimit 200 := by decide

/-- C6 (amended): the effective limit is the supplied value when it
parses and lies in (0,100] and otherwise the default 50 (also when the
parameter is absent or unparsable); the effective offset is the supplied
value when it parses and is ≥ 0 and otherwise the default 0; in
particular the effective limit always lies in (0,100] and the effective
offset is always ≥ 0. -/
theorem c6_get_posts_params :
    (∀ s v, goAtoi s = some v →
      effectiveLimit s = (if v > 0 ∧ v ≤ 100 then v else 50) ∧
      effectiveOffset s = (if v ≥ 0 then v else 0))
    ∧ (∀ s, goAtoi s = none → effectiveLimit s = 50 ∧ effectiveOffset s = 0)
    ∧ (∀ s, 0 < effectiveLimit s ∧ effectiveLimit s ≤ 100 ∧ 0 ≤ effectiveOffset s) := by
  have hempty : goAtoi "" = none := rfl
  have key : ∀ s, (goAtoi s = none → effectiveLimit s = 50 ∧ effectiveOffset s = 0)
      ∧ (∀ v, goAtoi s = some v →
        effectiveLimit s = (if v > 0 ∧ v ≤ 100 then v else 50) ∧
        effectiveOffset s = (if v ≥ 0 then v else 0)) := by
    intro s
    by_cases hs : s = ""
    · subst hs
      exact ⟨fun _ => ⟨rfl, rfl⟩, fun v hv => by rw [hempty] at hv; cases hv⟩
    · constructor
      · intro hn
        simp [effectiveLimit, effectiveOffset, hs, hn]
      · intro v hv
        simp [effectiveLimit, effectiveOffset, hs, hv]
  refine ⟨fun s v hv => (key s).2 v hv, fun s hn => (key s).1 hn, fun s => ?_⟩
  rcases hv : goAtoi s with _ | v
  · rcases (key s).1 hv with ⟨h1, h2⟩
    rw [h1, h2]; refine ⟨by norm_num, by norm_num, le_refl 0⟩
  · rcases (key s).2 v hv with ⟨h1, h2⟩
    rw [h1, h2]
    constructor
    · split
      · omega
      · norm_num
    constructor
    · split
      · omega
      · norm_num
    · split
      · omega
      · norm_num

theorem c6_get_posts_params_witness :
    (effectiveLimit "200" = 50 ∧ effectiveOffset "200" = 200)
    ∧ (effectiveLimit "abc" = 50 ∧ effectiveOffset "abc" = 0)
    ∧ (0 < effectiveLimit "-3" ∧ effectiveLimit "-3" ≤ 100 ∧ 0 ≤ effectiveOffset "-3") := by
  refine ⟨?_, c6_get_posts_params.2.1 "abc" rfl, c6_get_posts_params.2.2 "-3"⟩
  have h := c6_get_posts_params.1 "200" 200 rfl
  constructor
  · rw [h.1]; norm_num
  · rw [h.2]; norm_num

/-- C7: with the other fields valid, acceptance is decided exactly by
1 ≤ age ≤ 120 and non-empty (trimmed) content of at most 5000 bytes;
a validation error surfaces as the handler's 400 error; and the boundary
cases behave as claimed: age 1 and 120 accepted, 0 and 121 rejected,
content of 5000 characters accepted, 5001 rejected. -/
theorem c7_validation_bounds :
    (∀ req : CreatePostRequest,
      trimSpace req.eventName ≠ "" → goLen (trimSpace req.eventName) ≤ 200 →
      trimSpace req.location ≠ "" → goLen (trimSpace req.location) ≤ 200 →
      (req.gender ≠ "" → goLen req.gender ≤ 20) →
      (validateCreatePostRequest req = none ↔
        1 ≤ req.age ∧ req.age ≤ 120 ∧ trimSpace req.content ≠ "" ∧
          goLen (trimSpace req.content) ≤ 5000))
    ∧ (∀ (req : CreatePostRequest) (ipHash msg : String),
        validateCreatePostRequest req = some msg →
        handleCreatePost req ipHash = .error msg)
    ∧ validateCreatePostRequest ⟨"Reunion", "Hello", 1, "", "Chicago"⟩ = none
    ∧ validateCreatePostRequest ⟨"Reunion", "Hello", 120, "", "Chicago"⟩ = none
    ∧ validateCreatePostRequest ⟨"Reunion", "Hello", 0, "", "Chicago"⟩ =
        some "age must be between 1 and 120"
    ∧ validateCreatePostRequest ⟨"Reunion", "Hello", 121, "", "Chicago"⟩ =
        some "age must be between 1 and 120"
    ∧ validateCreatePostRequest
        ⟨"Reunion", String.mk (List.replicate 5000 'a'), 30, "", "Chicago"⟩ = none
    ∧ validateCreatePostRequest
        ⟨"Reunion", String.mk (List.replicate 5001 'a'), 30, "", "Chicago"⟩ =
        some "content must be 5000 characters or less" := by
  refine ⟨?_, ?_, by decide, by decide, by decide, by decide, ?_, ?_⟩
  · intro req h1 h2 h3 h4 h5
    rw [validate_characterization req h1 h2 h3 h4 h5]
    by_cases hce : trimSpace req.content = ""
    · have : (trimSpace req.content == "") = true := beq_iff_eq.mpr hce
      rw [if_pos this]
      simp [hce]
    · have : (trimSpace req.content == "") = false := beq_eq_false_iff_ne.mpr hce
      simp only [this, Bool.false_eq_true, if_false]
      by_cases hcl : goLen (trimSpace req.content) > 5000
      · rw [if_pos hcl]
        simp [hce]
        omega
      · rw [if_neg hcl]
        by_cases hage : req.age < 1 ∨ req.age > 120
        · rw [if_pos hage]
          simp [hce]
          omega
        · rw [if_neg hage]
          simp [hce]
          omega
  · intro req ipHash msg h
    simp [handleCreatePost, h]
  · rw [validate_characterization _ (by decide) (by decide) (by decide) (by decide)
      (fun h => absurd rfl h)]
    rw [show trimSpace (String.mk (List.replicate 5000 'a')) =
        String.mk (List.replicate 5000 'a') from trimSpace_replicate 5000 'a' (by decide)]
    rw [mkReplicate_beq_empty 5000 'a' (by omega)]
    simp only [Bool.false_eq_true, if_false]
    rw [goLen_replicate 5000 'a' (by decide)]
    rw [if_neg (by omega), if_neg (by omega)]
  · rw [validate_characterization _ (by decide) (by decide) (by decide) (by decide)
      (fun h => absurd rfl h)]
    rw [show trimSpace (String.mk (List.replicate 5001 'a')) =
        String.mk (List.replicate 5001 'a') from trimSpace_replicate 5001 'a' (by decide)]
    rw [mkReplicate_beq_empty 5001 'a' (by omega)]
    simp only [Bool.false_eq_true, if_false]
    rw [goLen_replicate 5001 'a' (by decide)]
    rw [if_pos (by omega)]

theorem c7_validation_bounds_witness :
    (validateCreatePostRequest ⟨"Reunion", "Hello", 30, "", "Chicago"⟩ = none ↔
      (1 : Int) ≤ 30 ∧ (30 : Int) ≤ 120 ∧ trimSpace "Hello" ≠ "" ∧
        goLen (trimSpace "Hello") ≤ 5000)
    ∧ handleCreatePost ⟨"Reunion", "Hello", 0, "", "Chicago"⟩ "digest" =
        .error "age must be between 1 and 120" := by
  constructor
  · exact c7_validation_bounds.1 ⟨"Reunion", "Hello", 30, "", "Chicago"⟩
      (by decide) (by decide) (by decide) (by decide) (fun h => absurd rfl h)
  · exact c7_validation_bounds.2.1 ⟨"Reunion", "Hello", 0, "", "Chicago"⟩ "digest"
      "age must be between 1 and 120" (by decide)

/-- C10: validation only trims its local copy — its verdict depends only
on the trimmed `event_name`/`content`/`location` (plus `age`/`gender`) —
while a successful create hands the store the original, untrimmed request
values; concretely, a content of 5000 `a`s wrapped in spaces passes
validation (trimmed length 5000) yet the inserted row keeps the 5002-byte
untrimmed content. -/
theorem c10_trim_local_copy :
    (∀ req req' : CreatePostRequest,
      trimSpace req.eventName = trimSpace req'.eventName →
      trimSpace req.content = trimSpace req'.content →
      trimSpace req.location = trimSpace req'.location →
      req.age = req'.age → req.gender = req'.gender →
      validateCreatePostRequest req = validateCreatePostRequest req')
    ∧ (∀ (req : CreatePostRequest) (ipHash : String) (row : InsertedRow),
      handleCreatePost req ipHash = .ok row →
      row = ⟨req.eventName, req.content, req.age, req.gender, req.location, ipHash⟩)
    ∧ (validateCreatePostRequest
        ⟨"Reunion", String.mk (' ' :: (List.replicate 5000 'a' ++ [' '])), 30, "", "Chicago"⟩ =
          none
      ∧ handleCreatePost
          ⟨"Reunion", String.mk (' ' :: (List.replicate 5000 'a' ++ [' '])), 30, "", "Chicago"⟩
          "digest" =
          .ok ⟨"Reunion", String.mk (' ' :: (List.replicate 5000 'a' ++ [' '])), 30, "",
            "Chicago", "digest"⟩
      ∧ goLen (String.mk (' ' :: (List.replicate 5000 'a' ++ [' ']))) = 5002
      ∧ goLen (trimSpace (String.mk (' ' :: (List.replicate 5000 'a' ++ [' '])))) = 5000) := by
  refine ⟨?_, ?_, ?_⟩
  · intro req req' h1 h2 h3 h4 h5
    simp only [validateCreatePostRequest, h1, h2, h3, h4, h5]
  · intro req ipHash row h
    cases hv : validateCreatePostRequest req with
    | some msg => simp [handleCreatePost, hv] at h
    | none =>
      simp [handleCreatePost, hv] at h
      exact h.symm
  · have hval : validateCreatePostRequest
        ⟨"Reunion", String.mk (' ' :: (List.replicate 5000 'a' ++ [' '])), 30, "", "Chicago"⟩ =
        none := by
      rw [validate_characterization _ (by decide) (by decide) (by decide) (by decide)
        (fun h => absurd rfl h)]
      rw [show trimSpace (String.mk (' ' :: (List.replicate 5000 'a' ++ [' ']))) =
          String.mk (List.replicate 5000 'a') from trimSpace_padded 5000]
      rw [mkReplicate_beq_empty 5000 'a' (by omega)]
      simp only [Bool.false_eq_true, if_false]
      rw [goLen_replicate 5000 'a' (by decide)]
      rw [if_neg (by omega), if_neg (by omega)]
    refine ⟨hval, ?_, ?_, ?_⟩
    · unfold handleCreatePost
      rw [hval]
    · rw [goLen_ascii]
      · simp only [List.length_cons, List.length_append, List.length_replicate,
          List.length_nil]
      · intro c hc
        simp only [List.mem_cons, List.mem_append, List.mem_replicate] at hc
        rcases hc with h | h | h
        · rw [h]; decide
        · rw [h.2]; decide
        · simp at h
          rw [h]; decide
    · rw [show trimSpace (String.mk (' ' :: (List.replicate 5000 'a' ++ [' ']))) =
          String.mk (List.replicate 5000 'a') from trimSpace_padded 5000]
      exact goLen_replicate 5000 'a' (by decide)

theorem c10_trim_local_copy_witness :
    validateCreatePostRequest ⟨" Reunion ", "Hello", 30, "", "Chicago"⟩ =
      validateCreatePostRequest ⟨"Reunion", "Hello", 30, "", "Chicago"⟩
    ∧ handleCreatePost ⟨" Reunion ", "Hello", 30, "", "Chicago"⟩ "digest" =
        .ok ⟨" Reunion ", "Hello", 30, "", "Chicago", "digest"⟩ := by
  constructor
  · exact c10_trim_local_copy.1 ⟨" Reunion ", "Hello", 30, "", "Chicago"⟩
      ⟨"Reunion", "Hello", 30, "", "Chicago"⟩ (by decide) (by decide) (by decide) rfl rfl
  · have h : handleCreatePost ⟨" Reunion ", "Hello", 30, "", "Chicago"⟩ "digest" =
        .ok ⟨" Reunion ", "Hello", 30, "", "Chicago", "digest"⟩ := rfl
    have := c10_trim_local_copy.2.1 ⟨" Reunion ", "Hello", 30, "", "Chicago"⟩ "digest"
      ⟨" Reunion ", "Hello", 30, "", "Chicago", "digest"⟩ h
    exact h

theorem countP_replicate_eq {α : Type} (p : α → Bool) (n : Nat) (a : α) :
    List.countP p (List.replicate n a) = if p a then n else 0 := by
  induction n with
  | zero => simp
  | succ m ih =>
    rw [List.replicate_succ, List.countP_cons, ih]
    by_cases hp : p a = true
    · simp [hp]
    · simp [hp]

/-- C1: for a POST with a healthy store, the limiter rejects with status
429 and the structured body naming the configured limit and window — and
does not forward, so no write occurs — exactly when the count of posts
with the caller's identity digest created strictly after `now - window`
reaches the limit; with limit 5 and window 60, any number k < 5 of posts
in the window still admits the next request, 5 posts reject it, and a
post recorded 61 minutes ago does not count (4 in-window posts plus the
old one still admit). -/
theorem c1_sliding_window (rl : RateLimiter) (db : DB) (now : Int) (r : Request)
    (hpost : r.method = "POST") (hok : db.failing = false) :
    (RateLimiter.Limit rl db now r =
        .reject429 (rateLimitBody rl.requestLimit rl.windowMinutes) ↔
      rl.requestLimit ≤ (countInWindow db.posts now (hashIP (getIP r)) rl.windowMinutes : Int))
    ∧ (∀ k : Nat, k < 5 →
      RateLimiter.Limit ⟨5, 60⟩ ⟨List.replicate k ⟨hashIP (getIP r), now⟩, false⟩ now r =
        .forward (hashIP (getIP r)))
    ∧ RateLimiter.Limit ⟨5, 60⟩ ⟨List.replicate 5 ⟨hashIP (getIP r), now⟩, false⟩ now r =
        .reject429 (rateLimitBody 5 60)
    ∧ RateLimiter.Limit ⟨5, 60⟩
        ⟨⟨hashIP (getIP r), now - 61⟩ :: List.replicate 4 ⟨hashIP (getIP r), now⟩, false⟩
        now r =
        .forward (hashIP (getIP r)) := by
  have unfold_limit : ∀ (rl' : RateLimiter) (db' : DB), db'.failing = false →
      RateLimiter.Limit rl' db' now r =
        if rl'.requestLimit ≤
            (countInWindow db'.posts now (hashIP (getIP r)) rl'.windowMinutes : Int) then
          .reject429 (rateLimitBody rl'.requestLimit rl'.windowMinutes)
        else .forward (hashIP (getIP r)) := by
    intro rl' db' hf
    unfold RateLimiter.Limit
    rw [if_neg (by simp [hpost])]
    simp only [dbCount, hf, Bool.false_eq_true, if_false, ge_iff_le]
  have hcount : ∀ k : Nat,
      countInWindow (List.replicate k ⟨hashIP (getIP r), now⟩) now (hashIP (getIP r)) 60 = k := by
    intro k
    unfold countInWindow
    rw [countP_replicate_eq]
    rw [if_pos (by simp only [beq_self_eq_true, Bool.true_and, decide_eq_true_eq]; omega)]
  refine ⟨?_, ?_, ?_, ?_⟩
  · rw [unfold_limit rl db hok]
    by_cases hc : rl.requestLimit ≤
        (countInWindow db.posts now (hashIP (getIP r)) rl.windowMinutes : Int)
    · rw [if_pos hc]
      exact ⟨fun _ => hc, fun _ => rfl⟩
    · rw [if_neg hc]
      exact ⟨fun h => LimitDecision.noConfusion h, fun h => absurd h hc⟩
  · intro k hk
    rw [unfold_limit ⟨5, 60⟩ ⟨List.replicate k ⟨hashIP (getIP r), now⟩, false⟩ rfl]
    rw [show (⟨List.replicate k ⟨hashIP (getIP r), now⟩, false⟩ : DB).posts =
        List.replicate k ⟨hashIP (getIP r), now⟩ from rfl]
    rw [hcount k]
    rw [if_neg (by push_cast; omega)]
  · rw [unfold_limit ⟨5, 60⟩ ⟨List.replicate 5 ⟨hashIP (getIP r), now⟩, false⟩ rfl]
    rw [show (⟨List.replicate 5 ⟨hashIP (getIP r), now⟩, false⟩ : DB).posts =
        List.replicate 5 ⟨hashIP (getIP r), now⟩ from rfl]
    rw [hcount 5]
    rw [if_pos (by norm_num)]
  · rw [unfold_limit ⟨5, 60⟩
      ⟨⟨hashIP (getIP r), now - 61⟩ :: List.replicate 4 ⟨hashIP (getIP r), now⟩, false⟩ rfl]
    have hc : countInWindow
        (⟨hashIP (getIP r), now - 61⟩ :: List.replicate 4 ⟨hashIP (getIP r), now⟩) now
        (hashIP (getIP r)) 60 = 4 := by
      unfold countInWindow
      rw [List.countP_cons]
      rw [if_neg (by simp only [beq_self_eq_true, Bool.true_and, decide_eq_true_eq]; omega)]
      have := hcount 4
      unfold countInWindow at this
      rw [this]
    rw [show (⟨⟨hashIP (getIP r), now - 61⟩ :: List.replicate 4 ⟨hashIP (getIP r), now⟩,
        false⟩ : DB).posts =
        ⟨hashIP (getIP r), now - 61⟩ :: List.replicate 4 ⟨hashIP (getIP r), now⟩ from rfl]
    rw [hc]
    rw [if_neg (by norm_num)]

theorem c1_sliding_window_witness :
    (RateLimiter.Limit ⟨5, 60⟩
        ⟨List.replicate 5 ⟨hashIP (getIP ⟨"POST", "", "", "10.0.0.7:9999"⟩), 1000⟩, false⟩ 1000
        ⟨"POST", "", "", "10.0.0.7:9999"⟩ =
      .reject429 (rateLimitBody 5 60))
    ∧ (RateLimiter.Limit ⟨5, 60⟩
        ⟨List.replicate 4 ⟨hashIP (getIP ⟨"POST", "", "", "10.0.0.7:9999"⟩), 1000⟩, false⟩ 1000
        ⟨"POST", "", "", "10.0.0.7:9999"⟩ =
      .forward (hashIP (getIP ⟨"POST", "", "", "10.0.0.7:9999"⟩)))
    ∧ (RateLimiter.Limit ⟨5, 60⟩
        ⟨⟨hashIP (getIP ⟨"POST", "", "", "10.0.0.7:9999"⟩), 1000 - 61⟩ ::
          List.replicate 4 ⟨hashIP (getIP ⟨"POST", "", "", "10.0.0.7:9999"⟩), 1000⟩, false⟩ 1000
        ⟨"POST", "", "", "10.0.0.7:9999"⟩ =
      .forward (hashIP (getIP ⟨"POST", "", "", "10.0.0.7:9999"⟩))) := by
  obtain ⟨h1, h2, h3, h4⟩ :=
    c1_sliding_window ⟨5, 60⟩ ⟨[], false⟩ 1000 ⟨"POST", "", "", "10.0.0.7:9999"⟩ rfl rfl
  exact ⟨h3, h2 4 (by omega), h4⟩

/-! ### Migration runner lemmas -/

theorem contains_iff_mem (l : List String) (a : String) : l.contains a = true ↔ a ∈ l :=
  List.elem_iff

theorem migLoop_ok_applied (execOk recordOk : String → Bool) (entries : List MigFile) :
    ∀ (names : List String) (st st' : MigState),
      migLoop execOk recordOk entries names st = .ok st' →
      (∀ v ∈ st.applied, v ∈ st'.applied) ∧
      (∀ f ∈ names, goTrimSuffix f ".sql" ∈ st'.applied) := by
  intro names
  induction names with
  | nil =>
    intro st st' h
    simp only [migLoop, MigResult.ok.injEq] at h
    subst h
    exact ⟨fun v hv => hv, by simp⟩
  | cons f rest ih =>
    intro st st' h
    simp only [migLoop] at h
    by_cases hct : st.applied.contains (goTrimSuffix f ".sql") = true
    · rw [if_pos hct] at h
      obtain ⟨hmono, hrest⟩ := ih st st' h
      refine ⟨hmono, fun g hg => ?_⟩
      rcases List.mem_cons.mp hg with hgf | hgr
      · subst hgf
        exact hmono _ ((contains_iff_mem _ _).mp hct)
      · exact hrest g hgr
    · rw [if_neg hct] at h
      by_cases hex : execOk (readMigFile entries f) = true
      · rw [if_pos hex] at h
        by_cases hrec : recordOk (goTrimSuffix f ".sql") = true
        · rw [if_pos hrec] at h
          obtain ⟨hmono, hrest⟩ := ih _ st' h
          refine ⟨fun v hv => hmono v (by simp [hv]), fun g hg => ?_⟩
          rcases List.mem_cons.mp hg with hgf | hgr
          · subst hgf
            exact hmono _ (by simp)
          · exact hrest g hgr
        · rw [if_neg hrec] at h
          exact absurd h (by simp)
      · rw [if_neg hex] at h
        exact absurd h (by simp)

theorem migLoop_skip_all (execOk recordOk : String → Bool) (entries : List MigFile) :
    ∀ (names : List String) (st : MigState),
      (∀ f ∈ names, goTrimSuffix f ".sql" ∈ st.applied) →
      migLoop execOk recordOk entries names st = .ok st := by
  intro names
  induction names with
  | nil => intro st _; rfl
  | cons f rest ih =>
    intro st hall
    simp only [migLoop]
    rw [if_pos ((contains_iff_mem _ _).mpr (hall f (List.mem_cons_self f rest)))]
    exact ih st (fun g hg => hall g (List.mem_cons_of_mem f hg))

/-- C2: a second run of the migration runner over a store it has already
fully and successfully migrated is a no-op — it reads and executes
nothing (it skips every recorded version without re-reading the script),
and the recorded version set after the second run is identical to the one
after the first run. -/
theorem c2_migrations_idempotent (execOk recordOk : String → Bool) (entries : List MigFile)
    (applied0 : List String) (st1 : MigState)
    (h : runMigrations execOk recordOk entries applied0 = .ok st1) :
    runMigrations execOk recordOk entries st1.applied = .ok ⟨st1.applied, [], []⟩ := by
  unfold runMigrations at h ⊢
  have hcov := (migLoop_ok_applied execOk recordOk entries (sqlFilenames entries)
    ⟨applied0, [], []⟩ st1 h).2
  exact migLoop_skip_all execOk recordOk entries (sqlFilenames entries)
    ⟨st1.applied, [], []⟩ hcov

theorem c2_migrations_idempotent_witness :
    runMigrations (fun _ => true) (fun _ => true)
      [⟨"001_init.sql", false, "CREATE TABLE posts"⟩, ⟨"002_age.sql", false, "ALTER TABLE posts"⟩]
      ["001_init", "002_age"] =
      .ok ⟨["001_init", "002_age"], [], []⟩ := by
  have h : runMigrations (fun _ => true) (fun _ => true)
      [⟨"001_init.sql", false, "CREATE TABLE posts"⟩, ⟨"002_age.sql", false, "ALTER TABLE posts"⟩]
      [] =
      .ok ⟨["001_init", "002_age"], ["001_init", "002_age"], ["001_init.sql", "002_age.sql"]⟩ :=
    by decide
  exact c2_migrations_idempotent (fun _ => true) (fun _ => true) _ [] _ h

theorem goTrimSuffix_sql_inj (s t : String)
    (hs : goHasSuffix s ".sql" = true) (ht : goHasSuffix t ".sql" = true)
    (heq : goTrimSuffix s ".sql" = goTrimSuffix t ".sql") : s = t := by
  have hs' := hs
  have ht' := ht
  unfold goHasSuffix at hs' ht'
  rw [Bool.and_eq_true] at hs' ht'
  have hsd : s.data.drop (s.data.length - (".sql" : String).data.length) = (".sql" : String).data :=
    beq_iff_eq.mp hs'.2
  have htd : t.data.drop (t.data.length - (".sql" : String).data.length) = (".sql" : String).data :=
    beq_iff_eq.mp ht'.2
  unfold goTrimSuffix at heq
  rw [if_pos hs, if_pos ht] at heq
  have htake : s.data.take (s.data.length - (".sql" : String).data.length) =
      t.data.take (t.data.length - (".sql" : String).data.length) := congrArg String.data heq
  apply String.ext
  calc s.data
      = s.data.take (s.data.length - (".sql" : String).data.length) ++
          s.data.drop (s.data.length - (".sql" : String).data.length) :=
        (List.take_append_drop _ _).symm
    _ = t.data.take (t.data.length - (".sql" : String).data.length) ++
          t.data.drop (t.data.length - (".sql" : String).data.length) := by rw [htake, hsd, htd]
    _ = t.data := List.take_append_drop _ _

theorem migLoop_fatal_inv (execOk recordOk : String → Bool) (entries : List MigFile) :
    ∀ (names : List String) (st st' : MigState) (msg : String),
      (∀ w ∈ st.executed, w ∈ st.applied) →
      migLoop execOk recordOk entries names st = .fatal st' msg →
      ∃ v, (msg = "Failed to run migration " ++ v ∨ msg = "Failed to record migration " ++ v) ∧
        v ∉ st'.applied ∧ (∀ w ∈ st'.executed, w ≠ v → w ∈ st'.applied) := by
  intro names
  induction names with
  | nil =>
    intro st st' msg _ h
    exact absurd h (by simp [migLoop])
  | cons f rest ih =>
    intro st st' msg hinv h
    simp only [migLoop] at h
    by_cases hct : st.applied.contains (goTrimSuffix f ".sql") = true
    · rw [if_pos hct] at h
      exact ih st st' msg hinv h
    · rw [if_neg hct] at h
      have hnotmem : goTrimSuffix f ".sql" ∉ st.applied := fun hm =>
        hct ((contains_iff_mem _ _).mpr hm)
      by_cases hex : execOk (readMigFile entries f) = true
      · rw [if_pos hex] at h
        by_cases hrec : recordOk (goTrimSuffix f ".sql") = true
        · rw [if_pos hrec] at h
          refine ih _ st' msg ?_ h
          intro w hw
          simp only [List.mem_append, List.mem_singleton] at hw
          rcases hw with hw | hw
          · exact List.mem_append_left _ (hinv w hw)
          · exact List.mem_append_right _ (by simp [hw])
        · rw [if_neg hrec] at h
          injection h with hst hmsg
          refine ⟨goTrimSuffix f ".sql", Or.inr hmsg.symm, ?_, ?_⟩
          · rw [← hst]
            exact hnotmem
          · intro w hw hne
            rw [← hst] at hw ⊢
            simp only [List.mem_append, List.mem_singleton] at hw
            rcases hw with hw | hw
            · exact hinv w hw
            · exact absurd hw hne
      · rw [if_neg hex] at h
        injection h with hst hmsg
        refine ⟨goTrimSuffix f ".sql", Or.inl hmsg.symm, ?_, ?_⟩
        · rw [← hst]
          exact hnotmem
        · intro w hw _
          rw [← hst] at hw ⊢
          exact hinv w hw

theorem migLoop_ok_success (execOk recordOk : String → Bool) (entries : List MigFile) :
    ∀ (names : List String) (st st' : MigState),
      (∀ f ∈ names, goHasSuffix f ".sql" = true) →
      migLoop execOk recordOk entries names st = .ok st' →
      ∀ f ∈ names, goTrimSuffix f ".sql" ∈ st.applied ∨
        (execOk (readMigFile entries f) = true ∧ recordOk (goTrimSuffix f ".sql") = true) := by
  intro names
  induction names with
  | nil =>
    intro st st' _ _ f hf
    exact absurd hf (by simp)
  | cons g rest ih =>
    intro st st' hsuf h f hf
    simp only [migLoop] at h
    by_cases hct : st.applied.contains (goTrimSuffix g ".sql") = true
    · rw [if_pos hct] at h
      rcases List.mem_cons.mp hf with hfg | hfr
      · subst hfg
        exact Or.inl ((contains_iff_mem _ _).mp hct)
      · exact ih st st' (fun x hx => hsuf x (List.mem_cons_of_mem g hx)) h f hfr
    · rw [if_neg hct] at h
      by_cases hex : execOk (readMigFile entries g) = true
      · rw [if_pos hex] at h
        by_cases hrec : recordOk (goTrimSuffix g ".sql") = true
        · rw [if_pos hrec] at h
          rcases List.mem_cons.mp hf with hfg | hfr
          · subst hfg
            exact Or.inr ⟨hex, hrec⟩
          · rcases ih _ st' (fun x hx => hsuf x (List.mem_cons_of_mem g hx)) h f hfr with
              hmem | hsucc
            · simp only [List.mem_append, List.mem_singleton] at hmem
              rcases hmem with hmem | hmem
              · exact Or.inl hmem
              · have hfg : f = g := goTrimSuffix_sql_inj f g
                  (hsuf f hf) (hsuf g (List.mem_cons_self g rest)) hmem
                subst hfg
                exact Or.inr ⟨hex, hrec⟩
            · exact Or.inr hsucc
        · rw [if_neg hrec] at h
          exact absurd h (by simp)
      · rw [if_neg hex] at h
        exact absurd h (by simp)

theorem sqlFilenames_suffix (entries : List MigFile) :
    ∀ f ∈ sqlFilenames entries, goHasSuffix f ".sql" = true := by
  intro f hf
  unfold sqlFilenames at hf
  rcases List.mem_map.mp hf with ⟨e, he, hname⟩
  have hp := (List.mem_filter.mp he).2
  rw [Bool.and_eq_true] at hp
  rw [← hname]
  exact hp.2

/-- C3: a failure while executing or recording a migration script
terminates the run fatally: the fatal state records every version
executed earlier (the failing version itself being the only possibly
executed-but-unrecorded one), the failing script's version is not
recorded, and the fatal message names it; conversely a run that
completes normally had every pending script execute and record
successfully, so a failing pending script always ends fatally. -/
theorem c3_migration_fatality (execOk recordOk : String → Bool) (entries : List MigFile)
    (applied0 : List String) :
    (∀ st msg, runMigrations execOk recordOk entries applied0 = .fatal st msg →
      ∃ v, (msg = "Failed to run migration " ++ v ∨ msg = "Failed to record migration " ++ v) ∧
        v ∉ st.applied ∧ (∀ w ∈ st.executed, w ≠ v → w ∈ st.applied))
    ∧ (∀ st, runMigrations execOk recordOk entries applied0 = .ok st →
      ∀ f ∈ sqlFilenames entries, goTrimSuffix f ".sql" ∈ applied0 ∨
        (execOk (readMigFile entries f) = true ∧ recordOk (goTrimSuffix f ".sql") = true)) := by
  constructor
  · intro st msg h
    exact migLoop_fatal_inv execOk recordOk entries (sqlFilenames entries)
      ⟨applied0, [], []⟩ st msg (by simp) h
  · intro st h f hf
    exact migLoop_ok_success execOk recordOk entries (sqlFilenames entries)
      ⟨applied0, [], []⟩ st (sqlFilenames_suffix entries) h f hf

theorem c3_migration_fatality_witness :
    ∃ v, ("Failed to run migration 002_b" = "Failed to run migration " ++ v ∨
          "Failed to run migration 002_b" = "Failed to record migration " ++ v) ∧
      v ∉ (⟨["001_a"], ["001_a"], ["001_a.sql", "002_b.sql"]⟩ : MigState).applied ∧
      (∀ w ∈ (⟨["001_a"], ["001_a"], ["001_a.sql", "002_b.sql"]⟩ : MigState).executed,
        w ≠ v → w ∈ (⟨["001_a"], ["001_a"], ["001_a.sql", "002_b.sql"]⟩ : MigState).applied) := by
  have h : runMigrations (fun s => s != "BAD") (fun _ => true)
      [⟨"001_a.sql", false, "GOOD SQL"⟩, ⟨"002_b.sql", false, "BAD"⟩,
       ⟨"003_c.sql", false, "GOOD SQL"⟩] [] =
      .fatal ⟨["001_a"], ["001_a"], ["001_a.sql", "002_b.sql"]⟩
        "Failed to run migration 002_b" := by decide
  exact (c3_migration_fatality (fun s => s != "BAD") (fun _ => true)
    [⟨"001_a.sql", false, "GOOD SQL"⟩, ⟨"002_b.sql", false, "BAD"⟩,
     ⟨"003_c.sql", false, "GOOD SQL"⟩] []).1
    ⟨["001_a"], ["001_a"], ["001_a.sql", "002_b.sql"]⟩ "Failed to run migration 002_b" h

theorem char_toNat_inj (a b : Char) (h : a.toNat = b.toNat) : a = b := by
  rw [← Char.ofNat_toNat a, ← Char.ofNat_toNat b, h]

theorem lexLe_total (a : List Char) : ∀ b, lexLe a b = true ∨ lexLe b a = true := by
  induction a with
  | nil =>
    intro b
    exact Or.inl rfl
  | cons x xs ih =>
    intro b
    cases b with
    | nil => exact Or.inr rfl
    | cons y ys =>
      simp only [lexLe]
      by_cases h1 : x.toNat < y.toNat
      · refine Or.inl ?_
        rw [if_pos h1]
      · by_cases h2 : y.toNat < x.toNat
        · refine Or.inr ?_
          rw [if_pos h2]
        · rcases ih ys with h | h
          · refine Or.inl ?_
            rw [if_neg h1, if_neg h2]
            exact h
          · refine Or.inr ?_
            rw [if_neg h2, if_neg h1]
            exact h

theorem lexLe_trans (a : List Char) :
    ∀ b c, lexLe a b = true → lexLe b c = true → lexLe a c = true := by
  induction a with
  | nil =>
    intro b c _ _
    rfl
  | cons x xs ih =>
    intro b c hab hbc
    cases b with
    | nil => simp [lexLe] at hab
    | cons y ys =>
      cases c with
      | nil => simp [lexLe] at hbc
      | cons z zs =>
        simp only [lexLe] at hab hbc ⊢
        by_cases h1 : x.toNat < y.toNat
        · by_cases h2 : y.toNat < z.toNat
          · rw [if_pos (by omega)]
          · by_cases h3 : z.toNat < y.toNat
            · rw [if_pos h3, if_neg h2] at hbc
              exact absurd hbc (by simp)
            · rw [if_pos (by omega)]
        · by_cases h4 : y.toNat < x.toNat
          · rw [if_neg h1, if_pos h4] at hab
            exact absurd hab (by simp)
          · rw [if_neg h1, if_neg h4] at hab
            by_cases h2 : y.toNat < z.toNat
            · rw [if_pos (by omega)]
            · by_cases h3 : z.toNat < y.toNat
              · rw [if_pos h3, if_neg h2] at hbc
                exact absurd hbc (by simp)
              · rw [if_neg h2, if_neg h3] at hbc
                rw [if_neg (by omega), if_neg (by omega)]
                exact ih ys zs hab hbc

theorem lexLe_antisymm (a : List Char) :
    ∀ b, lexLe a b = true → lexLe b a = true → a = b := by
  induction a with
  | nil =>
    intro b _ hba
    cases b with
    | nil => rfl
    | cons y ys => simp [lexLe] at hba
  | cons x xs ih =>
    intro b hab hba
    cases b with
    | nil => simp [lexLe] at hab
    | cons y ys =>
      simp only [lexLe] at hab hba
      by_cases h1 : x.toNat < y.toNat
      · rw [if_neg (by omega), if_pos h1] at hba
        exact absurd hba (by simp)
      · by_cases h2 : y.toNat < x.toNat
        · rw [if_neg h1, if_pos h2] at hab
          exact absurd hab (by simp)
        · rw [if_neg h1, if_neg h2] at hab
          rw [if_neg h2, if_neg h1] at hba
          rw [char_toNat_inj x y (by omega), ih ys hab hba]

instance : IsTotal MigFile (fun a b => nameLe a.name b.name = true) :=
  ⟨fun a b => lexLe_total a.name.data b.name.data⟩

instance : IsTrans MigFile (fun a b => nameLe a.name b.name = true) :=
  ⟨fun a b c => lexLe_trans a.name.data b.name.data c.name.data⟩

instance : IsAntisymm String (fun s t => nameLe s t = true) :=
  ⟨fun s t h1 h2 => String.ext (lexLe_antisymm s.data t.data h1 h2)⟩

theorem sqlFilenames_sorted (entries : List MigFile) :
    List.Pairwise (fun s t : String => nameLe s t = true) (sqlFilenames entries) := by
  unfold sqlFilenames readDir
  have hs := List.sorted_insertionSort (fun a b : MigFile => nameLe a.name b.name = true) entries
  have hf := List.Pairwise.filter (fun f => !f.isDir && goHasSuffix f.name ".sql") hs
  exact List.pairwise_map.mpr hf

theorem sqlFilenames_raw_perm (entries : List MigFile) :
    (sqlFilenames entries).Perm
      ((entries.filter (fun f => !f.isDir && goHasSuffix f.name ".sql")).map MigFile.name) := by
  unfold sqlFilenames readDir
  exact (List.Perm.filter _ (List.perm_insertionSort _ entries)).map _

theorem sqlFilenames_perm_eq (entries entries' : List MigFile) (hperm : entries'.Perm entries) :
    sqlFilenames entries' = sqlFilenames entries := by
  refine List.eq_of_perm_of_sorted (r := fun s t : String => nameLe s t = true) ?_
    (sqlFilenames_sorted entries') (sqlFilenames_sorted entries)
  exact ((sqlFilenames_raw_perm entries').trans
    ((List.Perm.filter _ hperm).map _)).trans (sqlFilenames_raw_perm entries).symm

theorem sqlFilenames_nodup (entries : List MigFile)
    (h : (entries.map MigFile.name).Nodup) : (sqlFilenames entries).Nodup := by
  unfold sqlFilenames readDir
  have hperm := List.perm_insertionSort
    (fun a b : MigFile => nameLe a.name b.name = true) entries
  have h2 : ((List.insertionSort (fun a b : MigFile => nameLe a.name b.name = true)
      entries).map MigFile.name).Nodup :=
    ((hperm.map MigFile.name).symm).nodup h
  exact ((List.filter_sublist _).map MigFile.name).nodup h2

theorem migLoop_all_ok (execOk recordOk : String → Bool) (entries : List MigFile)
    (hexec : ∀ s, execOk s = true) (hrec : ∀ s, recordOk s = true) :
    ∀ (names : List String) (st : MigState),
      (∀ f ∈ names, goTrimSuffix f ".sql" ∉ st.applied) →
      (names.map (fun f => goTrimSuffix f ".sql")).Nodup →
      migLoop execOk recordOk entries names st =
        .ok ⟨st.applied ++ names.map (fun f => goTrimSuffix f ".sql"),
             st.executed ++ names.map (fun f => goTrimSuffix f ".sql"),
             st.reads ++ names⟩ := by
  intro names
  induction names with
  | nil =>
    intro st _ _
    simp [migLoop]
  | cons f rest ih =>
    intro st hpend hnd
    simp only [migLoop]
    have hct : ¬ st.applied.contains (goTrimSuffix f ".sql") = true := fun hc =>
      hpend f (List.mem_cons_self f rest) ((contains_iff_mem _ _).mp hc)
    rw [if_neg hct, if_pos (hexec _), if_pos (hrec _)]
    rw [List.map_cons] at hnd
    have hnd' := List.nodup_cons.mp hnd
    rw [ih ⟨st.applied ++ [goTrimSuffix f ".sql"], st.executed ++ [goTrimSuffix f ".sql"],
        st.reads ++ [f]⟩ ?_ hnd'.2]
    · simp [List.append_assoc]
    · intro g hg
      simp only [List.mem_append, List.mem_singleton]
      rintro (hmem | hmem)
      · exact hpend g (List.mem_cons_of_mem f hg) hmem
      · exact hnd'.1 (hmem ▸ List.mem_map_of_mem _ hg)

theorem stripped_nodup (entries : List MigFile) (h : (entries.map MigFile.name).Nodup) :
    ((sqlFilenames entries).map (fun f => goTrimSuffix f ".sql")).Nodup :=
  (sqlFilenames_nodup entries h).map_on (fun x hx y hy hxy =>
    goTrimSuffix_sql_inj x y (sqlFilenames_suffix _ x hx) (sqlFilenames_suffix _ y hy) hxy)

/-- C4: with every script executing and recording successfully and
distinct filenames, a run from an empty tracking table considers exactly
the non-directory `.sql` files of the raw listing (the iterated names are
a permutation of them), executes their versions — each filename with the
`.sql` suffix stripped — in lexical filename order (the iterated names
are sorted under Go's byte-wise string order), and a permuted raw listing
produces the identical run. -/
theorem c4_lexical_order (execOk recordOk : String → Bool) (entries entries' : List MigFile)
    (hperm : entries'.Perm entries) (hnodup : (entries.map MigFile.name).Nodup)
    (hexec : ∀ s, execOk s = true) (hrec : ∀ s, recordOk s = true) :
    ∃ st, runMigrations execOk recordOk entries [] = .ok st ∧
      runMigrations execOk recordOk entries' [] = .ok st ∧
      st.executed = (sqlFilenames entries).map (fun f => goTrimSuffix f ".sql") ∧
      st.reads = sqlFilenames entries ∧
      List.Pairwise (fun s t : String => nameLe s t = true) (sqlFilenames entries) ∧
      (sqlFilenames entries).Perm
        ((entries.filter (fun f => !f.isDir && goHasSuffix f.name ".sql")).map
          MigFile.name) := by
  have hnd := stripped_nodup entries hnodup
  have h1 := migLoop_all_ok execOk recordOk entries hexec hrec (sqlFilenames entries)
    ⟨[], [], []⟩ (by simp) hnd
  have h2 := migLoop_all_ok execOk recordOk entries' hexec hrec (sqlFilenames entries')
    ⟨[], [], []⟩ (by simp) (by rw [sqlFilenames_perm_eq entries entries' hperm]; exact hnd)
  rw [sqlFilenames_perm_eq entries entries' hperm] at h2
  refine ⟨⟨(sqlFilenames entries).map (fun f => goTrimSuffix f ".sql"),
      (sqlFilenames entries).map (fun f => goTrimSuffix f ".sql"), sqlFilenames entries⟩,
    ?_, ?_, rfl, rfl, sqlFilenames_sorted entries, sqlFilenames_raw_perm entries⟩
  · unfold runMigrations
    rw [h1]
    simp
  · unfold runMigrations
    rw [sqlFilenames_perm_eq entries entries' hperm, h2]
    simp

theorem c4_lexical_order_witness :
    ∃ st, runMigrations (fun _ => true) (fun _ => true)
        [⟨"002_b.sql", false, "B"⟩, ⟨"sub", true, ""⟩, ⟨"notes.txt", false, "n"⟩,
         ⟨"001_a.sql", false, "A"⟩] [] = .ok st ∧
      runMigrations (fun _ => true) (fun _ => true)
        [⟨"001_a.sql", false, "A"⟩, ⟨"notes.txt", false, "n"⟩, ⟨"sub", true, ""⟩,
         ⟨"002_b.sql", false, "B"⟩] [] = .ok st ∧
      st.executed = (sqlFilenames
        [⟨"002_b.sql", false, "B"⟩, ⟨"sub", true, ""⟩, ⟨"notes.txt", false, "n"⟩,
         ⟨"001_a.sql", false, "A"⟩]).map (fun f => goTrimSuffix f ".sql") ∧
      st.reads = sqlFilenames
        [⟨"002_b.sql", false, "B"⟩, ⟨"sub", true, ""⟩, ⟨"notes.txt", false, "n"⟩,
         ⟨"001_a.sql", false, "A"⟩] ∧
      List.Pairwise (fun s t : String => nameLe s t = true) (sqlFilenames
        [⟨"002_b.sql", false, "B"⟩, ⟨"sub", true, ""⟩, ⟨"notes.txt", false, "n"⟩,
         ⟨"001_a.sql", false, "A"⟩]) ∧
      (sqlFilenames
        [⟨"002_b.sql", false, "B"⟩, ⟨"sub", true, ""⟩, ⟨"notes.txt", false, "n"⟩,
         ⟨"001_a.sql", false, "A"⟩]).Perm
        (([⟨"002_b.sql", false, "B"⟩, ⟨"sub", true, ""⟩, ⟨"notes.txt", false, "n"⟩,
           ⟨"001_a.sql", false, "A"⟩].filter
            (fun f : MigFile => !f.isDir && goHasSuffix f.name ".sql")).map MigFile.name) :=
  c4_lexical_order (fun _ => true) (fun _ => true)
    [⟨"002_b.sql", false, "B"⟩, ⟨"sub", true, ""⟩, ⟨"notes.txt", false, "n"⟩,
     ⟨"001_a.sql", false, "A"⟩]
    [⟨"001_a.sql", false, "A"⟩, ⟨"notes.txt", false, "n"⟩, ⟨"sub", true, ""⟩,
     ⟨"002_b.sql", false, "B"⟩]
    (by decide) (by decide) (fun _ => rfl) (fun _ => rfl)

/-! ### Digest lemmas -/

theorem hashState_eq (s t : HashState) (ha : s.a = t.a) (hb : s.b = t.b) (hc : s.c = t.c)
    (hd : s.d = t.d) (he : s.e = t.e) (hf : s.f = t.f) (hg : s.g = t.g) (hh : s.h = t.h) :
    s = t := by
  cases s
  cases t
  simp_all

theorem compressBlock_bounded (st : HashState) (block : List Nat) :
    boundedState (compressBlock st block) := by
  refine ⟨?_, ?_, ?_, ?_, ?_, ?_, ?_, ?_⟩ <;> exact Nat.mod_lt _ (by norm_num [w32])

theorem foldl_compress_bounded (l : List (List Nat)) :
    ∀ st, boundedState st → boundedState (l.foldl compressBlock st) := by
  induction l with
  | nil => exact fun st h => h
  | cons b rest ih =>
    intro st _
    rw [List.foldl_cons]
    exact ih (compressBlock st b) (compressBlock_bounded st b)

theorem sha256Words_bounded (msg : List Nat) : boundedState (sha256Words msg) :=
  foldl_compress_bounded _ initState (by unfold boundedState initState w32; norm_num)

theorem stateBytes_length (s : HashState) : (stateBytes s).length = 32 := by
  unfold stateBytes wordBytes
  simp

theorem hexEncodeBytes_length (l : List Nat) : (hexEncodeBytes l).length = 2 * l.length := by
  unfold hexEncodeBytes
  induction l with
  | nil => simp
  | cons b rest ih =>
    rw [List.map_cons, List.flatten_cons]
    simp only [List.length_append, List.length_cons, ih]
    unfold byteHex
    simp only [List.length_cons, List.length_nil]
    omega

theorem hashIP_length (s : String) : (hashIP s).length = 64 := by
  unfold hashIP sha256
  show (hexEncodeBytes (stateBytes (sha256Words (strBytes (s ++ "living-timeline-salt"))))).length
    = 64
  rw [hexEncodeBytes_length, stateBytes_length]

theorem string_infinite : Infinite String :=
  Infinite.of_injective (fun n => String.mk (List.replicate n 'a'))
    (fun m n h => by
      have := congrArg (fun s : String => s.data.length) h
      simpa using this)

/-- C8 counterexample: the digest function cannot distinguish all
addresses — it maps the infinitely many address strings into the
finitely many 256-bit states, so two distinct addresses share a digest
(pigeonhole; no explicit pair is known, the claim's universal
injectivity is refuted by cardinality). -/
theorem c8_counterexample : ∃ a b : String, a ≠ b ∧ hashIP a = hashIP b := by
  haveI := string_infinite
  obtain ⟨a, b, hne, heq⟩ := Finite.exists_ne_map_eq_of_infinite
    (fun s : String =>
      ((⟨(sha256Words (strBytes (s ++ "living-timeline-salt"))).a,
          (sha256Words_bounded _).1⟩ : Fin w32),
       (⟨(sha256Words (strBytes (s ++ "living-timeline-salt"))).b,
          (sha256Words_bounded _).2.1⟩ : Fin w32),
       (⟨(sha256Words (strBytes (s ++ "living-timeline-salt"))).c,
          (sha256Words_bounded _).2.2.1⟩ : Fin w32),
       (⟨(sha256Words (strBytes (s ++ "living-timeline-salt"))).d,
          (sha256Words_bounded _).2.2.2.1⟩ : Fin w32),
       (⟨(sha256Words (strBytes (s ++ "living-timeline-salt"))).e,
          (sha256Words_bounded _).2.2.2.2.1⟩ : Fin w32),
       (⟨(sha256Words (strBytes (s ++ "living-timeline-salt"))).f,
          (sha256Words_bounded _).2.2.2.2.2.1⟩ : Fin w32),
       (⟨(sha256Words (strBytes (s ++ "living-timeline-salt"))).g,
          (sha256Words_bounded _).2.2.2.2.2.2.1⟩ : Fin w32),
       (⟨(sha256Words (strBytes (s ++ "living-timeline-salt"))).h,
          (sha256Words_bounded _).2.2.2.2.2.2.2⟩ : Fin w32)))
  simp only [Prod.mk.injEq, Fin.mk.injEq] at heq
  obtain ⟨h1, h2, h3, h4, h5, h6, h7, h8⟩ := heq
  refine ⟨a, b, hne, ?_⟩
  unfold hashIP sha256
  rw [hashState_eq (sha256Words (strBytes (a ++ "living-timeline-salt")))
    (sha256Words (strBytes (b ++ "living-timeline-salt"))) h1 h2 h3 h4 h5 h6 h7 h8]

/-- C8 (amended): the identity digest is deterministic (equal addresses
give equal digests) and always 64 characters long, so it never equals a
raw address of any other length (IPv4/IPv6 textual addresses are at most
45 characters); it cannot be injective over all addresses (see the
counterexample), though no concrete colliding pair is known.  The
address fed to the digest is the first forwarded-for entry (trimmed) if
that header is present, else the real-IP header if present, else the
transport peer address with any port suffix stripped. -/
theorem c8_identity_digest :
    (∀ a b : String, a = b → hashIP a = hashIP b)
    ∧ (∀ a : String, (hashIP a).length = 64)
    ∧ (∀ a : String, a.length ≠ 64 → hashIP a ≠ a)
    ∧ (∀ r : Request, r.xForwardedFor ≠ "" →
        getIP r = trimSpace ((goSplitComma r.xForwardedFor).headD ""))
    ∧ (∀ r : Request, r.xForwardedFor = "" → r.xRealIP ≠ "" → getIP r = r.xRealIP)
    ∧ (∀ r : Request, r.xForwardedFor = "" → r.xRealIP = "" →
        getIP r = stripPort r.remoteAddr) := by
  refine ⟨fun a b h => by rw [h], hashIP_length, ?_, ?_, ?_, ?_⟩
  · intro a hlen heq
    exact hlen (by rw [← heq, hashIP_length])
  · intro r h
    unfold getIP
    rw [if_pos h]
  · intro r h1 h2
    unfold getIP
    rw [if_neg (by simp [h1]), if_pos h2]
  · intro r h1 h2
    unfold getIP
    rw [if_neg (by simp [h1]), if_neg (by simp [h2])]

theorem c8_identity_digest_witness :
    hashIP "10.0.0.7" = hashIP "10.0.0.7"
    ∧ (hashIP "10.0.0.7").length = 64
    ∧ hashIP "10.0.0.7" ≠ "10.0.0.7"
    ∧ getIP ⟨"POST", "1.2.3.4, 5.6.7.8", "9.9.9.9", "10.0.0.7:443"⟩ = "1.2.3.4"
    ∧ getIP ⟨"POST", "", "9.9.9.9", "10.0.0.7:443"⟩ = "9.9.9.9"
    ∧ getIP ⟨"POST", "", "", "10.0.0.7:443"⟩ = "10.0.0.7" := by
  obtain ⟨hdet, hlen, hne, hfwd, hreal, hremote⟩ := c8_identity_digest
  refine ⟨hdet "10.0.0.7" "10.0.0.7" rfl, hlen "10.0.0.7",
    hne "10.0.0.7" (by decide), ?_, ?_, ?_⟩
  · rw [hfwd ⟨"POST", "1.2.3.4, 5.6.7.8", "9.9.9.9", "10.0.0.7:443"⟩ (by decide)]
    decide
  · rw [hreal ⟨"POST", "", "9.9.9.9", "10.0.0.7:443"⟩ rfl (by decide)]
  · rw [hremote ⟨"POST", "", "", "10.0.0.7:443"⟩ rfl rfl]
    decide

end Hndshake
